import Mathlib

/-!
Verification of the request-validation-and-persistence pipeline of the
peptide-toxicity-prediction backend.

Shallow embedding of:
- backend/src/prediction/prediction.service.ts (PredictionService)
- backend/src/prediction/python-bridge.service.ts (PythonBridgeService)
- backend/src/database/database.service.ts (DatabaseService; its full
  listing appears in QUICK_START.md, the file itself is not in the
  backend source tree snapshot)
- backend/src/analysis/analysis.service.ts (AnalysisService)

Modelling conventions: JavaScript floats become rationals; the SQLite
table becomes a list of records kept in insertion order, with the
autoincrement id counter and a strictly increasing clock made explicit;
promises and thrown exceptions become Except; the out-of-process Python
predictor and the JSON parser are external collaborators and appear as
function parameters.
-/

namespace PeptideTox

/-! ## Sequence validator (prediction.service.ts) -/

/-- Source constant: the string of the 20 standard amino-acid letters. -/
def validAminoAcids : String := "ACDEFGHIKLMNPQRSTVWY"

/-- Embedding of PredictionService.isValidPeptideSequence:
    sequence.split(empty).every(aa, validAminoAcids.includes(aa)).
    Splitting a JS string on the empty separator yields its characters,
    so this is: every character of the sequence occurs in the constant. -/
def isValidPeptideSequence (sequence : String) : Bool :=
  sequence.toList.all fun aa => validAminoAcids.toList.contains aa

/-- Embedding of the sanitizeSequence normalization step documented in the
    QUICK_START.md listing of the prediction service (trim, toUpperCase,
    then remove every whitespace character). The trailing global removal
    of all whitespace subsumes the initial trim, and on ASCII input the
    JS toUpperCase is the per-character uppercase map. The shipped
    prediction.service.ts contains no such step. -/
def sanitizeSequence (sequence : String) : String :=
  String.mk ((sequence.toList.map Char.toUpper).filter fun c => !c.isWhitespace)

/-! ## External predictor gateway (python-bridge.service.ts) -/

/-- Probability pair returned by the external predictor. -/
structure Probability where
  toxic : ℚ
  non_toxic : ℚ
deriving DecidableEq

/-- One element of the structured result list emitted by the predictor. -/
structure PredResult where
  prediction : String
  confidence : ℚ
  probability : Probability
deriving DecidableEq

/-- Observable outcome of one spawned python3 process: its exit code and
    the data chunks delivered on each of the two output streams. The
    bridge registers separate handlers for stdout and stderr. -/
structure ProcRun where
  exitCode : Int
  stdoutChunks : List String
  stderrChunks : List String

/-- Accumulation performed by the stream handlers: output := output + data
    chunk by chunk, separately per stream. -/
def capture (chunks : List String) : String :=
  chunks.foldl (fun acc d => acc ++ d) ""

/-- Failure modes of PythonBridgeService.predict: rejection with the
    captured stderr text on a non-zero exit, or a distinct parse failure
    when JSON.parse throws on the captured stdout. -/
inductive BridgeError where
  | predictorFailure (message : String)
  | outputParseError (message : String)
deriving DecidableEq

/-- Embedding of the close handler of PythonBridgeService.predict. The
    JSON parser is a JS builtin, treated as an external collaborator and
    passed as a parameter; parse returning none models JSON.parse
    throwing. -/
def pythonBridgePredict (parse : String → Option (List PredResult))
    (run : ProcRun) : Except BridgeError (List PredResult) :=
  let output := capture run.stdoutChunks
  let errorOutput := capture run.stderrChunks
  if run.exitCode ≠ 0 then
    Except.error (BridgeError.predictorFailure ("Python script failed: " ++ errorOutput))
  else
    match parse output with
    | some result => Except.ok result
    | none => Except.error (BridgeError.outputParseError "Failed to parse Python output")

/-! ## Persistence store (database.service.ts, listing in QUICK_START.md) -/

/-- One row of the predictions table. Field names follow the schema:
    id INTEGER PRIMARY KEY AUTOINCREMENT, sequence, model, prediction,
    confidence, toxic_probability, non_toxic_probability,
    created_at TIMESTAMP DEFAULT CURRENT_TIMESTAMP. -/
structure StoredPrediction where
  id : Nat
  sequence : String
  model : String
  prediction : String
  confidence : ℚ
  toxic_probability : ℚ
  non_toxic_probability : ℚ
  created_at : Nat
deriving DecidableEq

/-- State of the SQLite store: rows in insertion order, the autoincrement
    counter, and the wall clock. CURRENT_TIMESTAMP is abstracted as a
    counter that strictly increases across inserts (the real store has
    second granularity and can tie; the strictly increasing clock is the
    stated abstraction). -/
structure DbState where
  records : List StoredPrediction
  nextId : Nat
  now : Nat
deriving DecidableEq

/-- Argument record of DatabaseService.addPrediction. -/
structure NewPrediction where
  sequence : String
  model : String
  prediction : String
  confidence : ℚ
  toxicProbability : ℚ
  nonToxicProbability : ℚ

/-- Embedding of DatabaseService.addPrediction: INSERT INTO predictions,
    resolving with the assigned autoincrement id (this.lastID). -/
def addPrediction (db : DbState) (data : NewPrediction) : DbState × Nat :=
  ({ records := db.records ++
      [{ id := db.nextId, sequence := data.sequence, model := data.model,
         prediction := data.prediction, confidence := data.confidence,
         toxic_probability := data.toxicProbability,
         non_toxic_probability := data.nonToxicProbability,
         created_at := db.now }],
     nextId := db.nextId + 1, now := db.now + 1 }, db.nextId)

/-- Embedding of DatabaseService.getRecentPredictions:
    SELECT * FROM predictions ORDER BY id DESC LIMIT limit.
    The ORDER BY clause is rendered as a sort of the rows by descending
    id, the LIMIT clause as take. -/
def getRecentPredictions (db : DbState) (limit : Nat) : List StoredPrediction :=
  (db.records.mergeSort fun a b => decide (b.id ≤ a.id)).take limit

/-- ASCII case folding as applied by SQLite LIKE: the letters A to Z map
    to their lowercase forms; every other character is left unchanged
    (SQLite folds case only on the ASCII range). -/
def asciiLower (c : Char) : Char :=
  if 'A' ≤ c ∧ c ≤ 'Z' then Char.ofNat (c.toNat + 32) else c

/-- Ordinary-character comparison of SQLite LIKE: equality up to ASCII
    case. -/
def likeCharEq (p c : Char) : Bool := asciiLower p == asciiLower c

/-- Does the predicate hold of some suffix of the list, the list itself
    included? Drives the percent wildcard of the LIKE matcher. -/
def anySuffix (pred : List Char → Bool) : List Char → Bool
  | [] => pred []
  | c :: t => pred (c :: t) || anySuffix pred t

/-- SQLite LIKE pattern matching over characters: the percent wildcard
    matches any possibly empty character sequence, the underscore
    wildcard matches exactly one character, and ordinary characters
    compare up to ASCII case. No ESCAPE clause is in play, so percent
    and underscore characters inside the user query act as wildcards. -/
def likeMatch : List Char → List Char → Bool
  | [] => fun t => t.isEmpty
  | p :: ps => fun t =>
    if p = '%' then anySuffix (likeMatch ps) t
    else
      match t with
      | [] => false
      | c :: ts => ((p == '_') || likeCharEq p c) && likeMatch ps ts

/-- Embedding of the SQL condition sequence LIKE ? with the bound
    parameter built as percent, query, percent: the raw user query is
    enclosed in percent wildcards and matched against the stored
    sequence under SQLite LIKE semantics. -/
def likeContains (s query : String) : Bool :=
  likeMatch (('%' :: query.toList) ++ ['%']) s.toList

/-- Embedding of DatabaseService.searchPredictions:
    SELECT * FROM predictions WHERE sequence LIKE %query%
    ORDER BY created_at DESC LIMIT limit. -/
def searchPredictions (db : DbState) (query : String) (limit : Nat) :
    List StoredPrediction :=
  ((db.records.filter fun r => likeContains r.sequence query).mergeSort
    fun a b => decide (b.created_at ≤ a.created_at)).take limit

/-- Store invariant maintained by addPrediction: rows are listed in
    insertion order, with strictly increasing autoincrement ids and
    strictly increasing insertion timestamps. -/
def DbWF (db : DbState) : Prop :=
  db.records.Pairwise (fun a b => a.id < b.id) ∧
  db.records.Pairwise (fun a b => a.created_at < b.created_at)

instance (db : DbState) : Decidable (DbWF db) := by
  unfold DbWF; infer_instance

/-! ## Prediction service (prediction.service.ts) -/

/-- Abstraction of the injected PythonBridgeService as seen by the
    prediction service: a call with the sequence list and model name that
    either rejects with a bridge error or resolves with a result list. -/
abbrev Gateway := List String → String → Except BridgeError (List PredResult)

/-- Body of PredictSequenceDto. The optional model field is undefined
    when omitted. -/
structure PredictSequenceDto where
  sequence : String
  model : Option String

/-- Body of BatchPredictDto. -/
structure BatchPredictDto where
  sequences : List String
  model : Option String

/-- JS expression model OR ensemble-literal: undefined and the empty
    string are falsy, every other string is returned unchanged. -/
def jsOrEnsemble : Option String → String
  | none => "ensemble"
  | some s => if s = "" then "ensemble" else s

/-- Model-name argument handed to PythonBridgeService.predict, whose
    declared default parameter value ensemble applies exactly when the
    dto omitted the field (JS default parameters fire on undefined only). -/
def bridgeModelArg : Option String → String
  | none => "ensemble"
  | some s => s

/-- Response shape of predictSingle (the data field). -/
structure SinglePrediction where
  id : String
  sequence : String
  model : String
  result : Option PredResult
  timestamp : Nat
deriving DecidableEq

/-- One element of the predictions array of a batch response; the result
    is the indexed access results idx, which in JS is undefined past the
    end of the result list. -/
structure BatchItem where
  sequence : String
  result : Option PredResult
deriving DecidableEq

/-- Response shape of predictBatch (the data field), also the value kept
    in the in-memory batch map. -/
structure BatchPrediction where
  id : String
  model : String
  predictions : List BatchItem
  total : Nat
  toxic : Nat
  nonToxic : Nat
  timestamp : Nat
deriving DecidableEq

/-- Process-wide state touched by the prediction service: the durable
    store and the in-memory batch-result map (this.predictions). The JS
    Map is rendered as an association list where insertion conses and
    lookup takes the first hit, observably equivalent for get after set. -/
structure ServiceState where
  db : DbState
  predictionsMap : List (String × BatchPrediction)
deriving DecidableEq

/-- Errors surfaced by the prediction service: BadRequestException with
    its message, a propagated bridge rejection, or the JS TypeError from
    reading a property of undefined. -/
inductive ServiceErr where
  | badRequest (message : String)
  | gatewayError (e : BridgeError)
  | runtimeTypeError
deriving DecidableEq

/-- Embedding of PredictionService.predictSingle. The generated id
    (Date.now plus randomness) is nondeterministic and is passed in as
    freshId. Note the shipped service validates the raw dto sequence
    directly: no sanitizeSequence call appears, in contrast to the
    QUICK_START.md listing of the same method. -/
def predictSingle (gw : Gateway) (freshId : String) (st : ServiceState)
    (dto : PredictSequenceDto) : Except ServiceErr (ServiceState × SinglePrediction) :=
  if !isValidPeptideSequence dto.sequence then
    Except.error (ServiceErr.badRequest
      "Invalid peptide sequence. Only standard amino acids are allowed.")
  else
    match gw [dto.sequence] (bridgeModelArg dto.model) with
    | Except.error e => Except.error (ServiceErr.gatewayError e)
    | Except.ok results =>
      match results.head? with
      | none => Except.error ServiceErr.runtimeTypeError
      | some r0 =>
        let response : SinglePrediction :=
          { id := freshId, sequence := dto.sequence, model := jsOrEnsemble dto.model,
            result := some r0, timestamp := st.db.now }
        let db2 := (addPrediction st.db
          { sequence := dto.sequence, model := jsOrEnsemble dto.model,
            prediction := r0.prediction, confidence := r0.confidence,
            toxicProbability := r0.probability.toxic,
            nonToxicProbability := r0.probability.non_toxic }).1
        Except.ok ({ st with db := db2 }, response)

/-- Embedding of PredictionService.predictBatch. Faithful to the shipped
    prediction.service.ts: after the gateway returns, the batch result is
    stored in the in-memory map only; no addPrediction call occurs in
    this method (the QUICK_START.md listing of the same method persists
    every per-sequence record). -/
def predictBatch (gw : Gateway) (freshId : String) (st : ServiceState)
    (dto : BatchPredictDto) : Except ServiceErr (ServiceState × BatchPrediction) :=
  let invalidSequences := dto.sequences.filter fun seq => !isValidPeptideSequence seq
  if invalidSequences.length > 0 then
    Except.error (ServiceErr.badRequest
      ("Invalid sequences found: " ++ String.intercalate ", " invalidSequences))
  else
    match gw dto.sequences (bridgeModelArg dto.model) with
    | Except.error e => Except.error (ServiceErr.gatewayError e)
    | Except.ok results =>
      let batchPrediction : BatchPrediction :=
        { id := freshId, model := jsOrEnsemble dto.model,
          predictions := dto.sequences.enum.map fun p =>
            { sequence := p.2, result := results.get? p.1 },
          total := dto.sequences.length,
          toxic := (results.filter fun r => r.prediction == "Toxic").length,
          nonToxic := (results.filter fun r => r.prediction == "Non-Toxic").length,
          timestamp := st.db.now }
      Except.ok
        ({ st with predictionsMap := (freshId, batchPrediction) :: st.predictionsMap },
         batchPrediction)

/-- Embedding of PredictionService.getPredictionById: a lookup in the
    in-memory map, throwing not-found when absent. -/
def getPredictionById (st : ServiceState) (id : String) :
    Except ServiceErr BatchPrediction :=
  match st.predictionsMap.lookup id with
  | none => Except.error (ServiceErr.badRequest "Prediction not found")
  | some p => Except.ok p

/-! ## Analysis service (analysis.service.ts) -/

/-- Helper for splitting on a separator character: returns the segment up
    to the first separator and the list of remaining segments. -/
def splitAux (c : Char) : List Char → List Char × List (List Char)
  | [] => ([], [])
  | a :: t =>
    let r := splitAux c t
    if a = c then ([], r.1 :: r.2) else (a :: r.1, r.2)

/-- Embedding of the JS expression sequence.split(aa) for a one-character
    separator aa: the list of (possibly empty) segments between
    occurrences of aa, always one more segment than occurrences. -/
def splitOnChar (c : Char) (l : List Char) : List (List Char) :=
  (splitAux c l).1 :: (splitAux c l).2

/-- The amino-acid list iterated by calculateAAC:
    ACDEFGHIKLMNPQRSTVWY.split(empty). -/
def aminoAcidList : List Char := validAminoAcids.toList

/-- Embedding of AnalysisService.calculateAAC for one letter aa:
    count := sequence.split(aa).length - 1;
    aac at aa := (count / sequence.length) * 100.
    JS number arithmetic is rendered in exact rational arithmetic. -/
def calculateAAC (sequence : List Char) (aa : Char) : ℚ :=
  (((splitOnChar aa sequence).length : ℚ) - 1) / (sequence.length : ℚ) * 100

/-! ## Concrete fixtures used by witnesses and counterexamples -/

/-- Gateway stub resolving every sequence with the same toxic result. -/
def resToxic : PredResult :=
  { prediction := "Toxic", confidence := 1,
    probability := { toxic := 1, non_toxic := 0 } }

/-- Gateway returning one toxic result per input sequence. -/
def gwToxic : Gateway := fun seqs _ => Except.ok (seqs.map fun _ => resToxic)

/-- Gateway whose external process fails. -/
def gwFail : Gateway := fun _ _ =>
  Except.error (BridgeError.predictorFailure "Python script failed: boom")

/-- Fresh server state: empty store, empty batch map. -/
def st0 : ServiceState :=
  { db := { records := [], nextId := 1, now := 0 }, predictionsMap := [] }

/-- Single-prediction request for the valid sequence ACD. -/
def dtoACD : PredictSequenceDto := { sequence := "ACD", model := none }

/-- Batch request with the single valid sequence ACD. -/
def dtoB : BatchPredictDto := { sequences := ["ACD"], model := none }

/-- Batch request containing the invalid sequence ACDXFGHIK. -/
def dtoBad : BatchPredictDto := { sequences := ["ACDXFGHIK"], model := none }

/-- Stored row produced by running dtoACD against gwToxic on st0. -/
def recACD : StoredPrediction :=
  { id := 1, sequence := "ACD", model := "ensemble", prediction := "Toxic",
    confidence := 1, toxic_probability := 1, non_toxic_probability := 0,
    created_at := 0 }

/-- Server state after the dtoACD single prediction on st0. -/
def st1 : ServiceState :=
  { db := { records := [recACD], nextId := 2, now := 1 }, predictionsMap := [] }

/-- Response of the dtoACD single prediction on st0 under id p1. -/
def respACD : SinglePrediction :=
  { id := "p1", sequence := "ACD", model := "ensemble", result := some resToxic,
    timestamp := 0 }

/-- Batch response of dtoB against gwToxic on st0 under id b1. -/
def respB : BatchPrediction :=
  { id := "b1", model := "ensemble",
    predictions := [{ sequence := "ACD", result := some resToxic }],
    total := 1, toxic := 1, nonToxic := 0, timestamp := 0 }

/-- Server state after the dtoB batch prediction on st0. -/
def stB : ServiceState :=
  { db := { records := [], nextId := 1, now := 0 },
    predictionsMap := [("b1", respB)] }

/-- Older stored row whose sequence contains the letter A. -/
def recOld : StoredPrediction :=
  { id := 1, sequence := "ACD", model := "ensemble", prediction := "Toxic",
    confidence := 1, toxic_probability := 1, non_toxic_probability := 0,
    created_at := 0 }

/-- Newer stored row whose sequence also contains the letter A. -/
def recNew : StoredPrediction :=
  { id := 2, sequence := "AAC", model := "ensemble", prediction := "Non-Toxic",
    confidence := 1, toxic_probability := 0, non_toxic_probability := 1,
    created_at := 1 }

/-- Store holding the two rows recOld and recNew in insertion order. -/
def dbTwo : DbState := { records := [recOld, recNew], nextId := 3, now := 2 }

/-- Parser stub that always fails, standing for JSON.parse throwing. -/
def parseNone : String → Option (List PredResult) := fun _ => none

/-- Process run that exits non-zero with diagnostics on stderr. -/
def runFail : ProcRun := { exitCode := 1, stdoutChunks := [], stderrChunks := ["boom"] }

/-- Process run that exits zero but emits unparseable output. -/
def runOkBad : ProcRun := { exitCode := 0, stdoutChunks := ["junk"], stderrChunks := [] }

/-! ## General lemmas -/

/-- Sorting a list that is strictly increasing under a numeric key, by
    the non-strict descending order on that key, reverses the list. This
    connects the ORDER BY ... DESC rendering to insertion order. -/
theorem mergeSort_descLe_eq_reverse {α : Type} (f : α → Nat) (l : List α)
    (hasc : l.Pairwise fun a b => f a < f b) :
    (l.mergeSort fun a b => decide (f b ≤ f a)) = l.reverse := by
  have htrans : ∀ a b c : α, (decide (f b ≤ f a)) = true →
      (decide (f c ≤ f b)) = true → (decide (f c ≤ f a)) = true := by
    intro a b c h1 h2
    simp only [decide_eq_true_eq] at h1 h2 ⊢
    omega
  have htotal : ∀ a b : α, ((decide (f b ≤ f a)) || (decide (f a ≤ f b))) = true := by
    intro a b
    simp only [Bool.or_eq_true, decide_eq_true_eq]
    omega
  have hsorted := List.sorted_mergeSort htrans htotal l
  have hperm := List.mergeSort_perm l (fun a b => decide (f b ≤ f a))
  have hle : (l.mergeSort fun a b => decide (f b ≤ f a)).Pairwise
      (fun a b => f b ≤ f a) := by
    refine hsorted.imp ?_
    intro a b h
    simpa using h
  have hne : l.Pairwise (fun a b => f a ≠ f b) := by
    refine hasc.imp ?_
    intro a b h
    omega
  have hsymm : ∀ {x y : α}, f x ≠ f y → f y ≠ f x := fun h => Ne.symm h
  have hne2 : (l.mergeSort fun a b => decide (f b ≤ f a)).Pairwise
      (fun a b => f a ≠ f b) :=
    (List.Perm.pairwise_iff hsymm hperm).mpr hne
  have hstrict : (l.mergeSort fun a b => decide (f b ≤ f a)).Pairwise
      (fun a b => f b < f a) := by
    refine (hle.and hne2).imp ?_
    rintro a b ⟨h1, h2⟩
    omega
  have hrev : l.reverse.Pairwise (fun a b => f b < f a) :=
    List.pairwise_reverse.mpr hasc
  haveI : IsAntisymm α (fun a b => f b < f a) := by
    constructor
    intro a b h1 h2
    omega
  exact List.eq_of_perm_of_sorted (hperm.trans (List.reverse_perm l).symm) hstrict hrev

/-- The merge sort by the non-strict descending order on a numeric key
    is pairwise non-increasing under that key, for every input list. -/
theorem mergeSort_descLe_sorted {α : Type} (f : α → Nat) (l : List α) :
    (l.mergeSort fun a b => decide (f b ≤ f a)).Pairwise (fun a b => f b ≤ f a) := by
  have htrans : ∀ a b c : α, (decide (f b ≤ f a)) = true →
      (decide (f c ≤ f b)) = true → (decide (f c ≤ f a)) = true := by
    intro a b c h1 h2
    simp only [decide_eq_true_eq] at h1 h2 ⊢
    omega
  have htotal : ∀ a b : α, ((decide (f b ≤ f a)) || (decide (f a ≤ f b))) = true := by
    intro a b
    simp only [Bool.or_eq_true, decide_eq_true_eq]
    omega
  have h := List.sorted_mergeSort htrans htotal l
  refine h.imp ?_
  intro a b hh
  simpa using hh

theorem anySuffix_eq_true_iff (pred : List Char → Bool) (t : List Char) :
    anySuffix pred t = true ↔ ∃ s, s <:+ t ∧ pred s = true := by
  induction t with
  | nil =>
    constructor
    · intro h
      exact ⟨[], List.nil_suffix, h⟩
    · rintro ⟨s, hs, hp⟩
      obtain ⟨u, hu⟩ := hs
      obtain ⟨hu1, hu2⟩ := List.append_eq_nil.mp hu
      subst hu2
      exact hp
  | cons c ts ih =>
    simp only [anySuffix, Bool.or_eq_true, ih, List.suffix_cons_iff]
    constructor
    · rintro (h | ⟨s, hs, hp⟩)
      · exact ⟨c :: ts, Or.inl rfl, h⟩
      · exact ⟨s, Or.inr hs, hp⟩
    · rintro ⟨s, h | hs, hp⟩
      · subst h
        exact Or.inl hp
      · exact Or.inr ⟨s, hs, hp⟩

/-- Matching a wildcard-free pattern followed by a trailing percent:
    some prefix of the text equals the pattern up to ASCII case. -/
theorem likeMatch_append_pct (p : List Char) (hp : ∀ c ∈ p, c ≠ '%' ∧ c ≠ '_')
    (t : List Char) :
    likeMatch (p ++ ['%']) t = true ↔
      ∃ t1, t1 <+: t ∧ t1.map asciiLower = p.map asciiLower := by
  induction p generalizing t with
  | nil =>
    simp only [List.nil_append, List.map_nil]
    constructor
    · intro _
      exact ⟨[], List.nil_prefix, List.map_nil⟩
    · intro _
      rw [show likeMatch ['%'] t = anySuffix (likeMatch []) t from by simp [likeMatch]]
      rw [anySuffix_eq_true_iff]
      exact ⟨[], List.nil_suffix, rfl⟩
  | cons a ps ih =>
    have ha := hp a (List.mem_cons_self a ps)
    have hps : ∀ c ∈ ps, c ≠ '%' ∧ c ≠ '_' := fun c hc => hp c (List.mem_cons_of_mem a hc)
    cases t with
    | nil =>
      rw [List.cons_append,
        show likeMatch (a :: (ps ++ ['%'])) [] = false from by simp [likeMatch, ha.1]]
      constructor
      · intro h
        exact absurd h (by simp)
      · rintro ⟨t1, ht1, hmap⟩
        obtain ⟨u, hu⟩ := ht1
        obtain ⟨hu1, hu2⟩ := List.append_eq_nil.mp hu
        subst hu1
        simp at hmap
    | cons c ts =>
      rw [List.cons_append,
        show likeMatch (a :: (ps ++ ['%'])) (c :: ts) =
          (((a == '_') || likeCharEq a c) && likeMatch (ps ++ ['%']) ts) from by
            simp [likeMatch, ha.1]]
      have ha2 : (a == '_') = false := by simp [ha.2]
      rw [ha2, Bool.false_or, Bool.and_eq_true, ih hps]
      constructor
      · rintro ⟨hc, t1, ht1, hmap⟩
        refine ⟨c :: t1, List.cons_prefix_cons.mpr ⟨rfl, ht1⟩, ?_⟩
        have hac : asciiLower a = asciiLower c := by simpa [likeCharEq] using hc
        simp only [List.map_cons, hmap, hac]
      · rintro ⟨t1, ht1, hmap⟩
        cases t1 with
        | nil => simp at hmap
        | cons x t1p =>
          obtain ⟨hx, ht1p⟩ := List.cons_prefix_cons.mp ht1
          subst hx
          simp only [List.map_cons, List.cons.injEq] at hmap
          obtain ⟨h1, h2⟩ := hmap
          refine ⟨?_, t1p, ht1p, h2⟩
          simp [likeCharEq, h1]

/-- For a query free of wildcard characters, the LIKE condition built by
    searchPredictions holds of a stored sequence exactly when some
    contiguous substring of the sequence equals the query up to ASCII
    case, that is, ASCII-case-insensitive substring containment. -/
theorem likeContains_wildcard_free (s q : String)
    (hq : ∀ c ∈ q.toList, c ≠ '%' ∧ c ≠ '_') :
    likeContains s q = true ↔
      ∃ m, m <:+: s.toList ∧ m.map asciiLower = q.toList.map asciiLower := by
  unfold likeContains
  rw [show likeMatch (('%' :: q.toList) ++ ['%']) s.toList =
      anySuffix (likeMatch (q.toList ++ ['%'])) s.toList from by simp [likeMatch]]
  rw [anySuffix_eq_true_iff]
  constructor
  · rintro ⟨suf, hsuf, hm⟩
    rw [likeMatch_append_pct q.toList hq suf] at hm
    obtain ⟨t1, ht1, hmap⟩ := hm
    exact ⟨t1, List.infix_iff_prefix_suffix.mpr ⟨suf, ht1, hsuf⟩, hmap⟩
  · rintro ⟨m, hinf, hmap⟩
    obtain ⟨t, htp, hts⟩ := List.infix_iff_prefix_suffix.mp hinf
    exact ⟨t, hts, (likeMatch_append_pct q.toList hq t).mpr ⟨m, htp, hmap⟩⟩

theorem splitAux_snd_length (c : Char) (l : List Char) :
    (splitAux c l).2.length = l.count c := by
  induction l with
  | nil => simp [splitAux]
  | cons a t ih =>
    by_cases h : a = c
    · subst h
      simp [splitAux, List.count_cons, ih]
    · simp [splitAux, h, List.count_cons, ih, Ne.symm h]

theorem splitOnChar_length (c : Char) (l : List Char) :
    (splitOnChar c l).length = l.count c + 1 := by
  simp [splitOnChar, splitAux_snd_length]

theorem calculateAAC_eq_count (l : List Char) (aa : Char) :
    calculateAAC l aa = ((l.count aa : ℚ) / (l.length : ℚ)) * 100 := by
  simp [calculateAAC, splitOnChar_length]

theorem indicator_sum_aminoAcidList (c : Char) (hc : c ∈ aminoAcidList) :
    (aminoAcidList.map fun aa => if aa = c then (1 : ℕ) else 0).sum = 1 := by
  fin_cases hc <;> decide

theorem count_sum_aminoAcidList (l : List Char)
    (halpha : ∀ c ∈ l, c ∈ aminoAcidList) :
    (aminoAcidList.map fun aa => l.count aa).sum = l.length := by
  induction l with
  | nil => simp
  | cons c t ih =>
    have hc : c ∈ aminoAcidList := halpha c (List.mem_cons_self c t)
    have ht : ∀ x ∈ t, x ∈ aminoAcidList := fun x hx => halpha x (List.mem_cons_of_mem c hx)
    have hcount : ∀ aa : Char, (c :: t).count aa = t.count aa + if aa = c then 1 else 0 := by
      intro aa
      by_cases h : aa = c
      · subst h
        simp [List.count_cons]
      · have hne : ¬ c = aa := fun hh => h hh.symm
        simp [List.count_cons, h, hne]
    calc (aminoAcidList.map fun aa => (c :: t).count aa).sum
        = (aminoAcidList.map fun aa => t.count aa + if aa = c then 1 else 0).sum := by
          rw [List.map_congr_left]
          intro aa _
          exact hcount aa
      _ = (aminoAcidList.map fun aa => t.count aa).sum
            + (aminoAcidList.map fun aa => if aa = c then (1 : ℕ) else 0).sum := by
          rw [List.sum_map_add]
      _ = t.length + 1 := by rw [ih ht, indicator_sum_aminoAcidList c hc]
      _ = (c :: t).length := by simp

/-! ## Claim theorems -/

/-- C3: the claim states the validator returns true iff the string is
    non-empty and every character is in the 20-letter alphabet, so the
    empty string is rejected. The shipped validator has no emptiness
    check: the every-quantifier over the characters of the empty string
    is vacuously true, so the empty string is accepted. The QUICK_START
    listing of the same method rejects falsy input first. -/
theorem isValidPeptideSequence_accepts_empty :
    isValidPeptideSequence "" = true := by decide

/-- C1: the claim states single predict first normalizes (trim,
    uppercase, strip internal whitespace) and then validates, so the raw
    input acdefghik is normalized to ACDEFGHIK, accepted, and the
    gateway is called with that one-element list. The normalization
    would indeed produce ACDEFGHIK and the validator would accept it,
    but the shipped predictSingle validates the raw dto string without
    any sanitizeSequence call: acdefghik is rejected with the
    invalid-sequence error for every gateway, generated id and state, so
    the gateway is never called and nothing is persisted. -/
theorem predictSingle_no_normalization :
    sanitizeSequence "acdefghik" = "ACDEFGHIK" ∧
    isValidPeptideSequence "ACDEFGHIK" = true ∧
    isValidPeptideSequence "acdefghik" = false ∧
    ∀ (gw : Gateway) (freshId : String) (st : ServiceState),
      predictSingle gw freshId st { sequence := "acdefghik", model := none } =
        Except.error (ServiceErr.badRequest
          "Invalid peptide sequence. Only standard amino acids are allowed.") := by
  refine ⟨by decide, by decide, by decide, ?_⟩
  intro gw freshId st
  rfl

/-- C7: the bridge captures stdout and stderr separately (the ProcRun
    streams are folded independently); a non-zero exit rejects with the
    predictor-failure error carrying the captured stderr text; a zero
    exit with unparseable captured stdout rejects with the distinct
    parse error; and the call succeeds exactly when the exit status is
    zero and the captured stdout parses. Quantified over every parser,
    since JSON.parse is an external collaborator. -/
theorem pythonBridgePredict_spec
    (parse : String → Option (List PredResult)) (run : ProcRun) :
    (run.exitCode ≠ 0 →
      pythonBridgePredict parse run = Except.error (BridgeError.predictorFailure
        ("Python script failed: " ++ capture run.stderrChunks))) ∧
    (run.exitCode = 0 → parse (capture run.stdoutChunks) = none →
      pythonBridgePredict parse run =
        Except.error (BridgeError.outputParseError "Failed to parse Python output")) ∧
    (∀ res, pythonBridgePredict parse run = Except.ok res ↔
      (run.exitCode = 0 ∧ parse (capture run.stdoutChunks) = some res)) ∧
    (∀ m1 m2, BridgeError.predictorFailure m1 ≠ BridgeError.outputParseError m2) := by
  refine ⟨?_, ?_, ?_, ?_⟩
  · intro h
    simp [pythonBridgePredict, h]
  · intro h hp
    simp [pythonBridgePredict, h, hp]
  · intro res
    by_cases h : run.exitCode = 0
    · cases hp : parse (capture run.stdoutChunks) with
      | none => simp [pythonBridgePredict, h, hp]
      | some r => simp [pythonBridgePredict, h, hp, eq_comm]
    · simp [pythonBridgePredict, h]
  · intro m1 m2
    exact fun h => BridgeError.noConfusion h

/-- C7 witness: a run exiting with status one and the text boom on
    stderr is rejected with that captured text, and a zero-status run
    whose output the parser rejects fails with the parse error. -/
theorem pythonBridgePredict_spec_witness :
    pythonBridgePredict parseNone runFail =
      Except.error (BridgeError.predictorFailure "Python script failed: boom") ∧
    pythonBridgePredict parseNone runOkBad =
      Except.error (BridgeError.outputParseError "Failed to parse Python output") := by
  constructor
  · exact (pythonBridgePredict_spec parseNone runFail).1 (by decide)
  · exact (pythonBridgePredict_spec parseNone runOkBad).2.1 (by decide) rfl

/-- C2: the claim states that after the gateway returns, each
    per-sequence record of a validated batch is persisted independently
    to the durable store, one write per input sequence. The shipped
    predictBatch performs no store write at all: whenever it succeeds,
    the durable store in the resulting state equals the durable store it
    started from, so every successful batch persists zero records. The
    QUICK_START listing of the same method persists each record. -/
theorem predictBatch_writes_no_durable_records
    (gw : Gateway) (freshId : String) (st : ServiceState) (dto : BatchPredictDto)
    (st2 : ServiceState) (resp : BatchPrediction)
    (hrun : predictBatch gw freshId st dto = Except.ok (st2, resp)) :
    st2.db = st.db := by
  simp only [predictBatch] at hrun
  split at hrun
  · exact absurd hrun (by simp)
  · split at hrun
    · exact absurd hrun (by simp)
    · simp only [Except.ok.injEq, Prod.mk.injEq] at hrun
      obtain ⟨h1, h2⟩ := hrun
      subst h1
      rfl

/-- C2 witness: the valid one-element batch ACD against the toxic
    gateway succeeds, yet the durable store of the resulting state is
    the store it started from. -/
theorem predictBatch_writes_no_durable_records_witness :
    predictBatch gwToxic "b1" st0 dtoB = Except.ok (stB, respB) ∧
    stB.db = st0.db := by
  constructor
  · rfl
  · exact predictBatch_writes_no_durable_records gwToxic "b1" st0 dtoB stB respB rfl

/-- C4: a batch in which some sequence fails the validator is rejected
    as a whole with the bad-request error whose message names the
    offending inputs, and the outcome is identical for every gateway and
    every generated id, so the gateway is never consulted; since the
    rejection produces no successor state, the durable store and the
    in-memory batch map are unchanged. -/
theorem predictBatch_all_or_nothing
    (st : ServiceState) (dto : BatchPredictDto)
    (hbad : ∃ s ∈ dto.sequences, isValidPeptideSequence s = false) :
    ∀ (gw gw2 : Gateway) (f1 f2 : String),
      predictBatch gw f1 st dto = Except.error (ServiceErr.badRequest
        ("Invalid sequences found: " ++ String.intercalate ", "
          (dto.sequences.filter fun seq => !isValidPeptideSequence seq))) ∧
      predictBatch gw f1 st dto = predictBatch gw2 f2 st dto := by
  intro gw gw2 f1 f2
  obtain ⟨s, hs, hsbad⟩ := hbad
  have hmem : s ∈ dto.sequences.filter fun seq => !isValidPeptideSequence seq :=
    List.mem_filter.mpr ⟨hs, by simp [hsbad]⟩
  have hlen : (dto.sequences.filter fun seq => !isValidPeptideSequence seq).length > 0 :=
    List.length_pos_of_mem hmem
  constructor
  · simp only [predictBatch]
    rw [if_pos hlen]
  · simp only [predictBatch]
    rw [if_pos hlen, if_pos hlen]

/-- C4 witness: the batch containing the invalid sequence ACDXFGHIK is
    rejected with the message naming it, identically under the toxic and
    the failing gateway and under distinct generated ids. -/
theorem predictBatch_all_or_nothing_witness :
    predictBatch gwToxic "b1" st0 dtoBad = Except.error (ServiceErr.badRequest
      ("Invalid sequences found: " ++ String.intercalate ", "
        (dtoBad.sequences.filter fun seq => !isValidPeptideSequence seq))) ∧
    predictBatch gwToxic "b1" st0 dtoBad = predictBatch gwFail "b2" st0 dtoBad :=
  predictBatch_all_or_nothing st0 dtoBad
    ⟨"ACDXFGHIK", by decide, by decide⟩ gwToxic gwFail "b1" "b2"

/-- C6: under the collaborator contract that the gateway returns exactly
    one result per input sequence with every label equal to Toxic or
    Non-Toxic, each successful batch response satisfies
    toxic + nonToxic = total = number of input sequences. -/
theorem predictBatch_counts
    (gw : Gateway) (freshId : String) (st : ServiceState) (dto : BatchPredictDto)
    (results : List PredResult) (st2 : ServiceState) (resp : BatchPrediction)
    (hgw : gw dto.sequences (bridgeModelArg dto.model) = Except.ok results)
    (hlen : results.length = dto.sequences.length)
    (hlabels : ∀ r ∈ results, r.prediction = "Toxic" ∨ r.prediction = "Non-Toxic")
    (hrun : predictBatch gw freshId st dto = Except.ok (st2, resp)) :
    resp.toxic + resp.nonToxic = resp.total ∧ resp.total = dto.sequences.length := by
  simp only [predictBatch] at hrun
  split at hrun
  · exact absurd hrun (by simp)
  · rw [hgw] at hrun
    simp only [Except.ok.injEq, Prod.mk.injEq] at hrun
    obtain ⟨h1, h2⟩ := hrun
    subst h2
    refine ⟨?_, rfl⟩
    show (results.filter fun r => r.prediction == "Toxic").length +
        (results.filter fun r => r.prediction == "Non-Toxic").length =
        dto.sequences.length
    rw [← List.countP_eq_length_filter, ← List.countP_eq_length_filter]
    have hsplit := List.length_eq_countP_add_countP
      (fun r => r.prediction == "Toxic") results
    have hcong : List.countP (fun r => r.prediction == "Non-Toxic") results =
        List.countP (fun r => decide ¬((fun r : PredResult =>
          r.prediction == "Toxic") r = true)) results := by
      refine List.countP_congr ?_
      intro r hr
      rcases hlabels r hr with h | h <;> simp [h]
    rw [hcong, ← hsplit, hlen]

/-- C6 witness: the one-element batch ACD against the per-sequence toxic
    gateway yields total one, toxic one, nonToxic zero. -/
theorem predictBatch_counts_witness :
    respB.toxic + respB.nonToxic = respB.total ∧
    respB.total = dtoB.sequences.length :=
  predictBatch_counts gwToxic "b1" st0 dtoB [resToxic] stB respB
    rfl (by decide) (by decide) rfl

/-- C9: predictSingle never touches the in-memory batch map: on success
    the resulting state carries the map of the initial state unchanged
    (on failure no successor state exists at all), and whenever the id
    of the single response is not a key of that map, a subsequent lookup
    by that id fails with the not-found error. -/
theorem predictSingle_preserves_batchMap
    (gw : Gateway) (freshId : String) (st : ServiceState) (dto : PredictSequenceDto)
    (st2 : ServiceState) (resp : SinglePrediction)
    (hrun : predictSingle gw freshId st dto = Except.ok (st2, resp)) :
    st2.predictionsMap = st.predictionsMap ∧
    (st2.predictionsMap.lookup resp.id = none →
      getPredictionById st2 resp.id =
        Except.error (ServiceErr.badRequest "Prediction not found")) := by
  simp only [predictSingle] at hrun
  split at hrun
  · exact absurd hrun (by simp)
  · split at hrun
    · exact absurd hrun (by simp)
    · split at hrun
      · exact absurd hrun (by simp)
      · simp only [Except.ok.injEq, Prod.mk.injEq] at hrun
        obtain ⟨h1, h2⟩ := hrun
        subst h1
        refine ⟨rfl, ?_⟩
        intro hnone
        simp only [getPredictionById, hnone]

/-- C9 witness: the single prediction of ACD leaves the batch map empty
    as it was, and looking up the returned id p1 afterwards fails with
    the not-found error. -/
theorem predictSingle_preserves_batchMap_witness :
    st1.predictionsMap = st0.predictionsMap ∧
    getPredictionById st1 respACD.id =
      Except.error (ServiceErr.badRequest "Prediction not found") := by
  have h := predictSingle_preserves_batchMap gwToxic "p1" st0 dtoACD st1 respACD rfl
  exact ⟨h.1, h.2 rfl⟩

/-- C8: on a well-formed store getRecentPredictions returns at most
    limit records, in reverse insertion order, with strictly decreasing
    ids (most-recent-first with descending-id tie-break is the same
    order, since autoincrement ids follow insertion order and never
    tie). -/
theorem getRecentPredictions_spec (db : DbState) (limit : Nat) (hwf : DbWF db) :
    getRecentPredictions db limit = db.records.reverse.take limit ∧
    (getRecentPredictions db limit).length ≤ limit ∧
    (getRecentPredictions db limit).Pairwise (fun a b => b.id < a.id) := by
  have hms := mergeSort_descLe_eq_reverse (fun r => r.id) db.records hwf.1
  have heq : getRecentPredictions db limit = db.records.reverse.take limit := by
    unfold getRecentPredictions
    exact congrArg (List.take limit) hms
  refine ⟨heq, ?_, ?_⟩
  · rw [heq, List.length_take]
    exact min_le_left _ _
  · rw [heq]
    exact (List.pairwise_reverse.mpr hwf.1).take

/-- C8 witness: on the two-row store the most recent row comes back
    first and alone under limit one, with the stated bounds and order. -/
theorem getRecentPredictions_spec_witness :
    getRecentPredictions dbTwo 1 = dbTwo.records.reverse.take 1 ∧
    (getRecentPredictions dbTwo 1).length ≤ 1 ∧
    (getRecentPredictions dbTwo 1).Pairwise (fun a b => b.id < a.id) :=
  getRecentPredictions_spec dbTwo 1 (by decide)

/-- C5 counterexample: the claim says searchPredictions(q, limit)
    returns exactly the persisted records whose sequence contains q as a
    substring, and no others. The store filter is SQL LIKE, which folds
    ASCII case: on the two-row store, the query a returns the rows ACD
    and AAC although neither contains a as a substring, so the returned
    list is not the set of records containing the query. The limit
    clause independently breaks exactness (a one-row limit with two
    matches omits a matching record). -/
theorem searchPredictions_not_substring_exact :
    ¬ (∀ r, r ∈ searchPredictions dbTwo "a" 50 ↔
        (r ∈ dbTwo.records ∧ decide ("a".toList <:+: r.sequence.toList) = true)) := by
  intro h
  have hms := mergeSort_descLe_eq_reverse (fun r => r.created_at)
    (dbTwo.records.filter fun r => likeContains r.sequence "a") (by decide)
  have heq : searchPredictions dbTwo "a" 50 =
      ((dbTwo.records.filter fun r => likeContains r.sequence "a").reverse).take 50 := by
    unfold searchPredictions
    exact congrArg (List.take 50) hms
  have hmem : recNew ∈ searchPredictions dbTwo "a" 50 := by
    rw [heq]
    decide
  have habs := ((h recNew).mp hmem).2
  exact absurd habs (by decide)

/-- C5 (amended): searchPredictions(q, limit) returns at most limit of
    the persisted records whose sequence matches the SQL pattern percent
    q percent under SQLite LIKE semantics, and no others: every returned
    record is a persisted match; the result length is the minimum of
    limit and the number of matches; insertion timestamps are
    non-increasing along the result (most-recent-first up to records
    sharing a timestamp, whose relative order the store leaves
    unspecified); every omitted match is no more recent than every
    returned record; when at most limit records match, exactly the
    matching records are returned; and for a query free of the percent
    and underscore wildcard characters, LIKE matching is ASCII-case-
    insensitive substring containment. -/
theorem searchPredictions_spec (db : DbState) (q : String) (limit : Nat) :
    (∀ r ∈ searchPredictions db q limit,
      r ∈ db.records ∧ likeContains r.sequence q = true) ∧
    (searchPredictions db q limit).length =
      min limit (db.records.filter fun r => likeContains r.sequence q).length ∧
    (searchPredictions db q limit).Pairwise
      (fun a b => b.created_at ≤ a.created_at) ∧
    ((db.records.filter fun r => likeContains r.sequence q).length ≤ limit →
      (searchPredictions db q limit).Perm
        (db.records.filter fun r => likeContains r.sequence q)) ∧
    (∀ r ∈ searchPredictions db q limit,
      ∀ rr ∈ db.records.filter fun x => likeContains x.sequence q,
        rr ∉ searchPredictions db q limit → rr.created_at ≤ r.created_at) ∧
    ((∀ c ∈ q.toList, c ≠ '%' ∧ c ≠ '_') → ∀ s : String,
      likeContains s q = true ↔
        ∃ m, m <:+: s.toList ∧ m.map asciiLower = q.toList.map asciiLower) := by
  have hperm := List.mergeSort_perm
    (db.records.filter fun r => likeContains r.sequence q)
    (fun a b => decide (b.created_at ≤ a.created_at))
  have hsorted : ((db.records.filter fun r => likeContains r.sequence q).mergeSort
      fun a b => decide (b.created_at ≤ a.created_at)).Pairwise
      (fun a b => b.created_at ≤ a.created_at) :=
    mergeSort_descLe_sorted (fun r : StoredPrediction => r.created_at) _
  refine ⟨?_, ?_, ?_, ?_, ?_, ?_⟩
  · intro r hr
    have hr1 : r ∈ (db.records.filter fun r => likeContains r.sequence q).mergeSort
        (fun a b => decide (b.created_at ≤ a.created_at)) := List.mem_of_mem_take hr
    exact List.mem_filter.mp (hperm.mem_iff.mp hr1)
  · show (List.take limit _).length = _
    rw [List.length_take, hperm.length_eq]
  · exact hsorted.take
  · intro hle
    have hlen2 : ((db.records.filter fun r => likeContains r.sequence q).mergeSort
        (fun a b => decide (b.created_at ≤ a.created_at))).length ≤ limit := by
      rw [hperm.length_eq]
      exact hle
    show (List.take limit _).Perm _
    rw [List.take_of_length_le hlen2]
    exact hperm
  · intro r hr rr hrr hnot
    have hrr1 : rr ∈ (db.records.filter fun r => likeContains r.sequence q).mergeSort
        (fun a b => decide (b.created_at ≤ a.created_at)) := hperm.mem_iff.mpr hrr
    have hsplit := List.take_append_drop limit
      ((db.records.filter fun r => likeContains r.sequence q).mergeSort
        (fun a b => decide (b.created_at ≤ a.created_at)))
    rw [← hsplit] at hrr1
    have hrr2 : rr ∈ List.drop limit
        ((db.records.filter fun r => likeContains r.sequence q).mergeSort
          (fun a b => decide (b.created_at ≤ a.created_at))) := by
      rcases List.mem_append.mp hrr1 with hmem | hmem
      · exact absurd hmem hnot
      · exact hmem
    have hpw2 := hsorted
    rw [← hsplit] at hpw2
    exact (List.pairwise_append.mp hpw2).2.2 r hr rr hrr2
  · intro hwc s
    exact likeContains_wildcard_free s q hwc

/-- C5 witness: on the two-row store, with a query small enough for the
    limit the search returns a permutation of exactly the matching
    records; the lowercase query a matches the stored ACD by
    case-insensitive containment; and the older match omitted under
    limit one is no more recent than the returned newer match. -/
theorem searchPredictions_spec_witness :
    (searchPredictions dbTwo "A" 50).Perm
      (dbTwo.records.filter fun r => likeContains r.sequence "A") ∧
    likeContains "ACD" "a" = true ∧
    recOld.created_at ≤ recNew.created_at := by
  refine ⟨(searchPredictions_spec dbTwo "A" 50).2.2.2.1 (by decide), ?_, ?_⟩
  · exact ((searchPredictions_spec dbTwo "a" 50).2.2.2.2.2 (by decide) "ACD").mpr
      ⟨['A'], by decide, by decide⟩
  · have hms := mergeSort_descLe_eq_reverse (fun r => r.created_at)
      (dbTwo.records.filter fun r => likeContains r.sequence "A") (by decide)
    have heq : searchPredictions dbTwo "A" 1 =
        ((dbTwo.records.filter fun r => likeContains r.sequence "A").reverse).take 1 := by
      unfold searchPredictions
      exact congrArg (List.take 1) hms
    exact (searchPredictions_spec dbTwo "A" 1).2.2.2.2.1 recNew
      (by rw [heq]; decide) recOld (by decide) (by rw [heq]; decide)

/-- C10: for every non-empty sequence over the 20-letter alphabet, the
    twenty per-letter composition percentages computed by calculateAAC
    sum to exactly one hundred in rational arithmetic. -/
theorem calculateAAC_sums_to_100 (l : List Char) (hne : l ≠ [])
    (halpha : ∀ c ∈ l, c ∈ aminoAcidList) :
    (aminoAcidList.map (calculateAAC l)).sum = 100 := by
  have hlen : (l.length : ℚ) ≠ 0 := by
    simpa [List.length_eq_zero] using hne
  calc (aminoAcidList.map (calculateAAC l)).sum
      = (aminoAcidList.map fun aa =>
          ((l.count aa : ℚ)) * (100 / (l.length : ℚ))).sum := by
        refine congrArg List.sum (List.map_congr_left ?_)
        intro aa _
        rw [calculateAAC_eq_count]
        ring
    _ = ((aminoAcidList.map fun aa => ((l.count aa : ℚ))).sum) *
          (100 / (l.length : ℚ)) := List.sum_map_mul_right _ _ _
    _ = ((l.length : ℚ)) * (100 / (l.length : ℚ)) := by
        have hcast : (aminoAcidList.map fun aa => ((l.count aa : ℚ))).sum =
            (((aminoAcidList.map fun aa => l.count aa).sum : ℕ) : ℚ) := by
          rw [Nat.cast_list_sum, List.map_map]
          rfl
        rw [hcast, count_sum_aminoAcidList l halpha]
    _ = 100 := by field_simp

/-- C10 witness: the composition percentages of the sequence ACD sum to
    one hundred. -/
theorem calculateAAC_sums_to_100_witness :
    (aminoAcidList.map (calculateAAC ("ACD".toList))).sum = 100 :=
  calculateAAC_sums_to_100 ("ACD".toList) (by decide) (by decide)

end PeptideTox
